import Mathlib

/-!
Verification of the image transformation pipeline of `odoo/tools/image.py`.

The development shallowly embeds the pure decision logic of `image_process`:
the early-return paths (falsy source, SVG sniff), the resolution guard, the
output-format resolution, the asked-size derivation, the crop-window
geometry with its safety clamps and anchors, the colorize step, and the
format-specific encode options.  Pixel data itself is delegated by the
source to the Pillow codec, so images are modelled by their observable
attributes (width, height, mode, intrinsic format, transparency flag).

The crop branch of the source compares `w / asked_width > h / asked_height`
using Python float (IEEE-754 binary64) division of integers, which CPython
computes by correctly rounding the exact quotient to the nearest double
(ties to even).  That rounding is modelled exactly below (`fdiv64`) for
quotients inside the binary64 exponent range; exponent overflow, where
CPython raises OverflowError instead of returning a float, is outside the
model and is noted where relevant.
-/

/-- Floor of the base-two logarithm, by structural recursion on a fuel
argument so that the kernel can evaluate it on literals.  `log2fuel f n`
computes the floor of log2 of `n` provided `n ≤ f` and `0 < n`. -/
def log2fuel : ℕ → ℕ → ℕ
  | 0, _ => 0
  | f + 1, n => if n < 2 then 0 else log2fuel f (n / 2) + 1

/-- Floor of the base-two logarithm of a positive natural number. -/
def nlog2 (n : ℕ) : ℕ := log2fuel n n

theorem log2fuel_spec (f : ℕ) : ∀ n : ℕ, 0 < n → n ≤ f →
    2 ^ log2fuel f n ≤ n ∧ n < 2 ^ (log2fuel f n + 1) := by
  induction f with
  | zero => intro n hn hf; omega
  | succ f ih =>
    intro n hn hf
    by_cases h2 : n < 2
    · have : n = 1 := by omega
      subst this
      simp [log2fuel]
    · have hdpos : 0 < n / 2 := Nat.div_pos (by omega) (by omega)
      have hdle : n / 2 ≤ f := by omega
      obtain ⟨h1, h2'⟩ := ih (n / 2) hdpos hdle
      have hexp : log2fuel (f + 1) n = log2fuel f (n / 2) + 1 := by
        simp [log2fuel, h2]
      rw [hexp]
      constructor
      · calc 2 ^ (log2fuel f (n / 2) + 1) = 2 * 2 ^ log2fuel f (n / 2) := by ring
        _ ≤ 2 * (n / 2) := by omega
        _ ≤ n := by omega
      · calc n < 2 * (n / 2) + 2 := by omega
        _ ≤ 2 * 2 ^ (log2fuel f (n / 2) + 1) := by omega
        _ = 2 ^ (log2fuel f (n / 2) + 1 + 1) := by ring

theorem nlog2_spec (n : ℕ) (hn : 0 < n) :
    2 ^ nlog2 n ≤ n ∧ n < 2 ^ (nlog2 n + 1) :=
  log2fuel_spec n n hn le_rfl

/-- Round-half-to-even of the fraction `num / den` (`den > 0` intended),
as performed by correct rounding of a real quotient to an integer. -/
def rheN (num den : ℕ) : ℕ :=
  if den < 2 * (num % den) then num / den + 1
  else if 2 * (num % den) < den then num / den
  else if num / den % 2 = 0 then num / den else num / den + 1

theorem rheN_ge (num den : ℕ) : num / den ≤ rheN num den := by
  unfold rheN; split_ifs <;> omega

theorem rheN_le (num den : ℕ) : rheN num den ≤ num / den + 1 := by
  unfold rheN; split_ifs <;> omega

theorem rheN_of_exact (num den : ℕ) (hden : 0 < den) (h : num % den = 0) :
    rheN num den = num / den := by
  unfold rheN
  split_ifs <;> omega

/-- Monotonicity of round-half-to-even: if `n1 / d1 ≤ n2 / d2` as exact
fractions (cross-multiplied), the roundings are ordered the same way. -/
theorem rheN_mono (n1 d1 n2 d2 : ℕ) (hd1 : 0 < d1) (hd2 : 0 < d2)
    (h : n1 * d2 ≤ n2 * d1) : rheN n1 d1 ≤ rheN n2 d2 := by
  have e1 := Nat.div_add_mod n1 d1
  have e2 := Nat.div_add_mod n2 d2
  have hr1 : n1 % d1 < d1 := Nat.mod_lt _ hd1
  have hr2 : n2 % d2 < d2 := Nat.mod_lt _ hd2
  set q1 := n1 / d1 with hq1
  set q2 := n2 / d2 with hq2
  set r1 := n1 % d1 with hr1d
  set r2 := n2 % d2 with hr2d
  rcases lt_trichotomy q1 q2 with hq | hq | hq
  · calc rheN n1 d1 ≤ q1 + 1 := rheN_le n1 d1
      _ ≤ q2 := by omega
      _ ≤ rheN n2 d2 := rheN_ge n2 d2
  · -- equal integer parts: compare the fractional parts
    have hfrac : r1 * d2 ≤ r2 * d1 := by
      have expand : (d1 * q1 + r1) * d2 ≤ (d2 * q2 + r2) * d1 := by
        rw [e1, e2] at *; exact h
      have : d1 * d2 * q1 + r1 * d2 ≤ d1 * d2 * q2 + r2 * d1 := by nlinarith
      rw [hq] at this
      omega
    unfold rheN
    rw [← hq1, ← hq2, ← hr1d, ← hr2d, ← hq]
    split_ifs with ha hb hc hd he hf hg hh hi hj hk <;> try omega
    all_goals {
      exfalso
      nlinarith
    }
  · -- impossible: the larger integer part contradicts the value ordering
    exfalso
    have h1 : d1 * q1 ≤ n1 := by omega
    have h2 : n2 < d2 * (q2 + 1) := by nlinarith
    have : n2 * d1 < n1 * d2 := by
      calc n2 * d1 < d2 * (q2 + 1) * d1 := by
            exact Nat.mul_lt_mul_of_lt_of_le h2 le_rfl hd1
        _ ≤ d2 * q1 * d1 := by
            have : q2 + 1 ≤ q1 := by omega
            exact Nat.mul_le_mul_right _ (Nat.mul_le_mul_left _ this)
        _ = d1 * q1 * d2 := by ring
        _ ≤ n1 * d2 := Nat.mul_le_mul_right _ h1
    omega

/-- The rational number `2 ^ p` for an integer exponent `p`, written so
that the kernel evaluates it directly on natural-number powers. -/
def pow2z (p : ℤ) : ℚ :=
  if 0 ≤ p then ((2 ^ p.toNat : ℕ) : ℚ) else ((2 ^ (-p).toNat : ℕ) : ℚ)⁻¹

theorem pow2z_eq_zpow (p : ℤ) : pow2z p = (2 : ℚ) ^ p := by
  unfold pow2z
  split_ifs with h
  · rw [show ((2 ^ p.toNat : ℕ) : ℚ) = (2 : ℚ) ^ p.toNat by push_cast; ring,
      ← zpow_natCast, Int.toNat_of_nonneg h]
  · rw [show ((2 ^ (-p).toNat : ℕ) : ℚ) = (2 : ℚ) ^ (-p).toNat by push_cast; ring,
      ← zpow_natCast, Int.toNat_of_nonneg (by omega : (0:ℤ) ≤ -p), ← zpow_neg, neg_neg]

theorem pow2z_pos (p : ℤ) : 0 < pow2z p := by
  rw [pow2z_eq_zpow]
  exact zpow_pos (by norm_num) p

theorem pow2z_add (x y : ℤ) : pow2z (x + y) = pow2z x * pow2z y := by
  rw [pow2z_eq_zpow, pow2z_eq_zpow, pow2z_eq_zpow, zpow_add₀ (by norm_num : (2:ℚ) ≠ 0)]

theorem pow2z_mono {x y : ℤ} (h : x ≤ y) : pow2z x ≤ pow2z y := by
  rw [pow2z_eq_zpow, pow2z_eq_zpow]
  exact (zpow_le_zpow_iff_right₀ (by norm_num : (1:ℚ) < 2)).mpr h

theorem pow2z_lt_iff {x y : ℤ} : pow2z x < pow2z y ↔ x < y := by
  rw [pow2z_eq_zpow, pow2z_eq_zpow]
  exact zpow_lt_zpow_iff_right₀ (by norm_num : (1:ℚ) < 2)

/-- Floor of the base-two logarithm of the positive fraction `a / b`. -/
def ilog2n (a b : ℕ) : ℤ :=
  (nlog2 (a * 2 ^ (nlog2 b + 1) / b) : ℤ) - (nlog2 b + 1)

theorem ilog2n_bounds (a b : ℕ) (ha : 0 < a) (hb : 0 < b) :
    pow2z (ilog2n a b) ≤ (a : ℚ) / b ∧ (a : ℚ) / b < pow2z (ilog2n a b + 1) := by
  have hK : b < 2 ^ (nlog2 b + 1) := (nlog2_spec b hb).2
  have hble : b ≤ a * 2 ^ (nlog2 b + 1) := by
    calc b ≤ 2 ^ (nlog2 b + 1) := hK.le
      _ ≤ a * 2 ^ (nlog2 b + 1) := Nat.le_mul_of_pos_left _ ha
  have hnpos : 0 < a * 2 ^ (nlog2 b + 1) / b := Nat.div_pos hble hb
  obtain ⟨hL1, hL2⟩ := nlog2_spec _ hnpos
  have hlow : 2 ^ nlog2 (a * 2 ^ (nlog2 b + 1) / b) * b ≤ a * 2 ^ (nlog2 b + 1) := by
    calc 2 ^ nlog2 (a * 2 ^ (nlog2 b + 1) / b) * b
        ≤ (a * 2 ^ (nlog2 b + 1) / b) * b := Nat.mul_le_mul_right b hL1
      _ ≤ a * 2 ^ (nlog2 b + 1) := Nat.div_mul_le_self _ _
  have hhigh : a * 2 ^ (nlog2 b + 1) <
      2 ^ (nlog2 (a * 2 ^ (nlog2 b + 1) / b) + 1) * b :=
    (Nat.div_lt_iff_lt_mul hb).mp hL2
  have hbq : (0:ℚ) < (b:ℚ) := by exact_mod_cast hb
  have h2K : (0:ℚ) < (2:ℚ) ^ ((nlog2 b + 1 : ℕ) : ℤ) := zpow_pos (by norm_num) _
  constructor
  · rw [pow2z_eq_zpow]
    show (2:ℚ) ^ ((nlog2 (a * 2 ^ (nlog2 b + 1) / b) : ℤ) - (nlog2 b + 1)) ≤ _
    rw [show ((nlog2 b : ℤ) + 1) = ((nlog2 b + 1 : ℕ) : ℤ) by push_cast; ring,
      zpow_sub₀ (by norm_num : (2:ℚ) ≠ 0), div_le_div_iff₀ h2K hbq]
    rw [zpow_natCast, zpow_natCast]
    exact_mod_cast hlow
  · rw [pow2z_eq_zpow]
    show _ < (2:ℚ) ^ ((nlog2 (a * 2 ^ (nlog2 b + 1) / b) : ℤ) - (nlog2 b + 1) + 1)
    rw [show ((nlog2 (a * 2 ^ (nlog2 b + 1) / b) : ℤ) - (nlog2 b + 1) + 1)
        = ((nlog2 (a * 2 ^ (nlog2 b + 1) / b) + 1 : ℕ) : ℤ) - ((nlog2 b + 1 : ℕ) : ℤ)
        by push_cast; ring,
      zpow_sub₀ (by norm_num : (2:ℚ) ≠ 0), div_lt_div_iff₀ hbq h2K]
    rw [zpow_natCast, zpow_natCast]
    exact_mod_cast hhigh

theorem ilog2n_mono (a1 b1 a2 b2 : ℕ) (ha1 : 0 < a1) (hb1 : 0 < b1)
    (ha2 : 0 < a2) (hb2 : 0 < b2) (h : a1 * b2 ≤ a2 * b1) :
    ilog2n a1 b1 ≤ ilog2n a2 b2 := by
  have hb1q : (0:ℚ) < (b1:ℚ) := by exact_mod_cast hb1
  have hb2q : (0:ℚ) < (b2:ℚ) := by exact_mod_cast hb2
  have hq : (a1 : ℚ) / b1 ≤ (a2 : ℚ) / b2 := by
    rw [div_le_div_iff₀ hb1q hb2q]
    exact_mod_cast h
  obtain ⟨h1, _⟩ := ilog2n_bounds a1 b1 ha1 hb1
  obtain ⟨_, h2⟩ := ilog2n_bounds a2 b2 ha2 hb2
  have : pow2z (ilog2n a1 b1) < pow2z (ilog2n a2 b2 + 1) :=
    lt_of_le_of_lt (le_trans h1 hq) h2
  have := pow2z_lt_iff.mp this
  omega

/-- Exponent of the unit-in-the-last-place grid on which a positive value
with floor-log2 `e` is rounded in binary64: 52 bits below the leading bit
for normal values, clamped to the fixed subnormal grid `2 ^ (-1074)`. -/
def gridExp (e : ℤ) : ℤ := max (e - 52) (-1074)

/-- The rational number `m * 2 ^ p`, built directly with `mkRat` so that
the kernel evaluates it on literals. -/
def ratShift (m : ℕ) (p : ℤ) : ℚ :=
  if 0 ≤ p then mkRat (m * 2 ^ p.toNat) 1 else mkRat m (2 ^ (-p).toNat)

theorem ratShift_eq (m : ℕ) (p : ℤ) : ratShift m p = (m : ℚ) * pow2z p := by
  unfold ratShift pow2z
  split_ifs with h
  · rw [Rat.mkRat_one]
    push_cast; ring
  · rw [Rat.mkRat_eq_div]
    push_cast
    rw [div_eq_mul_inv]

/-- CPython float division of two positive integers: the exact quotient
`a / b` correctly rounded to the nearest IEEE-754 binary64 value, ties to
even, returned as the rational value of that double.  Exponent overflow
(quotients of magnitude at least `2 ^ 1024`, where CPython raises
OverflowError rather than produce a float) is not modelled: there the
function returns the ideally rounded value instead. -/
def fdiv64 (a b : ℕ) : ℚ :=
  ratShift (rheN (a * 2 ^ (-gridExp (ilog2n a b)).toNat)
                 (b * 2 ^ (gridExp (ilog2n a b)).toNat)) (gridExp (ilog2n a b))

theorem fdiv64_eq (a b : ℕ) : fdiv64 a b
    = (rheN (a * 2 ^ (-gridExp (ilog2n a b)).toNat)
            (b * 2 ^ (gridExp (ilog2n a b)).toNat) : ℚ) * pow2z (gridExp (ilog2n a b)) := by
  unfold fdiv64
  exact ratShift_eq _ _

/-- Value of the scaled fraction fed to the integer rounding step. -/
theorem scaled_eq (a b : ℕ) (hb : 0 < b) (p : ℤ) :
    ((a * 2 ^ (-p).toNat : ℕ) : ℚ) / ((b * 2 ^ p.toNat : ℕ) : ℚ)
      = (a : ℚ) / b * pow2z (-p) := by
  have hbq : (b:ℚ) ≠ 0 := by positivity
  rcases le_or_lt 0 p with hp | hp
  · have h1 : (-p).toNat = 0 := by omega
    have h2 : pow2z (-p) = ((2 ^ p.toNat : ℕ) : ℚ)⁻¹ := by
      unfold pow2z
      rcases eq_or_lt_of_le hp with rfl | hp'
      · norm_num
      · rw [if_neg (by omega), neg_neg]
    rw [h1, h2]
    have hpow : ((2 ^ p.toNat : ℕ) : ℚ) ≠ 0 := by positivity
    push_cast
    field_simp
  · have h1 : p.toNat = 0 := by omega
    have h2 : pow2z (-p) = ((2 ^ (-p).toNat : ℕ) : ℚ) := by
      unfold pow2z
      rw [if_pos (by omega)]
    rw [h1, h2]
    push_cast
    field_simp

/-- Lower bound on rounding a positive fraction on the grid of step
`2 ^ p`: any power of two below the value also bounds the rounding. -/
theorem roundAt_ge (a b : ℕ) (hb : 0 < b) (p c : ℤ) (hpc : p ≤ c)
    (hc : pow2z c ≤ (a : ℚ) / b) :
    pow2z c ≤ (rheN (a * 2 ^ (-p).toNat) (b * 2 ^ p.toNat) : ℚ) * pow2z p := by
  have hdenpos : 0 < b * 2 ^ p.toNat := by positivity
  have hdq : (0:ℚ) < ((b * 2 ^ p.toNat : ℕ) : ℚ) := by exact_mod_cast hdenpos
  have hp2 : pow2z (c - p) = ((2 ^ (c - p).toNat : ℕ) : ℚ) := by
    unfold pow2z; rw [if_pos (by omega)]
  have hge : ((2 ^ (c - p).toNat : ℕ) : ℚ)
      ≤ ((a * 2 ^ (-p).toNat : ℕ) : ℚ) / ((b * 2 ^ p.toNat : ℕ) : ℚ) := by
    rw [← hp2, scaled_eq a b hb p, show c - p = c + -p by ring, pow2z_add]
    exact mul_le_mul_of_nonneg_right hc (pow2z_pos _).le
  have hnat : 2 ^ (c - p).toNat * (b * 2 ^ p.toNat) ≤ a * 2 ^ (-p).toNat := by
    exact_mod_cast (le_div_iff₀ hdq).mp hge
  have hm : 2 ^ (c - p).toNat ≤ rheN (a * 2 ^ (-p).toNat) (b * 2 ^ p.toNat) :=
    le_trans ((Nat.le_div_iff_mul_le hdenpos).mpr hnat) (rheN_ge _ _)
  calc pow2z c = pow2z (c - p) * pow2z p := by rw [← pow2z_add]; congr 1; ring
    _ = ((2 ^ (c - p).toNat : ℕ) : ℚ) * pow2z p := by rw [hp2]
    _ ≤ _ := mul_le_mul_of_nonneg_right (by exact_mod_cast hm) (pow2z_pos _).le

/-- Upper bound on rounding a positive fraction on the grid of step
`2 ^ p`: a power of two strictly above the value bounds the rounding. -/
theorem roundAt_le (a b : ℕ) (hb : 0 < b) (p c : ℤ) (hpc : p ≤ c)
    (hc : (a : ℚ) / b < pow2z c) :
    (rheN (a * 2 ^ (-p).toNat) (b * 2 ^ p.toNat) : ℚ) * pow2z p ≤ pow2z c := by
  have hdenpos : 0 < b * 2 ^ p.toNat := by positivity
  have hdq : (0:ℚ) < ((b * 2 ^ p.toNat : ℕ) : ℚ) := by exact_mod_cast hdenpos
  have hp2 : pow2z (c - p) = ((2 ^ (c - p).toNat : ℕ) : ℚ) := by
    unfold pow2z; rw [if_pos (by omega)]
  have hlt : ((a * 2 ^ (-p).toNat : ℕ) : ℚ) / ((b * 2 ^ p.toNat : ℕ) : ℚ)
      < ((2 ^ (c - p).toNat : ℕ) : ℚ) := by
    rw [← hp2, scaled_eq a b hb p, show c - p = c + -p by ring, pow2z_add]
    exact mul_lt_mul_of_pos_right hc (pow2z_pos _)
  have hnat : a * 2 ^ (-p).toNat < 2 ^ (c - p).toNat * (b * 2 ^ p.toNat) := by
    exact_mod_cast (div_lt_iff₀ hdq).mp hlt
  have hdiv : a * 2 ^ (-p).toNat / (b * 2 ^ p.toNat) < 2 ^ (c - p).toNat :=
    (Nat.div_lt_iff_lt_mul hdenpos).mpr hnat
  have hm : rheN (a * 2 ^ (-p).toNat) (b * 2 ^ p.toNat) ≤ 2 ^ (c - p).toNat := by
    have h1 := rheN_le (a * 2 ^ (-p).toNat) (b * 2 ^ p.toNat)
    omega
  calc (rheN (a * 2 ^ (-p).toNat) (b * 2 ^ p.toNat) : ℚ) * pow2z p
      ≤ ((2 ^ (c - p).toNat : ℕ) : ℚ) * pow2z p :=
        mul_le_mul_of_nonneg_right (by exact_mod_cast hm) (pow2z_pos _).le
    _ = pow2z (c - p) * pow2z p := by rw [hp2]
    _ = pow2z c := by rw [← pow2z_add]; congr 1; ring

theorem fdiv64_le_max (a b : ℕ) (ha : 0 < a) (hb : 0 < b) :
    fdiv64 a b ≤ pow2z (max (ilog2n a b + 1) (-1074)) := by
  rw [fdiv64_eq]
  apply roundAt_le a b hb _ _ ?_ ?_
  · unfold gridExp; omega
  · exact lt_of_lt_of_le (ilog2n_bounds a b ha hb).2 (pow2z_mono (le_max_left _ _))

theorem fdiv64_ge_pow (a b : ℕ) (ha : 0 < a) (hb : 0 < b)
    (he : -1074 ≤ ilog2n a b) : pow2z (ilog2n a b) ≤ fdiv64 a b := by
  rw [fdiv64_eq]
  apply roundAt_ge a b hb _ _ ?_ (ilog2n_bounds a b ha hb).1
  unfold gridExp; omega

/-- Monotonicity of correctly rounded binary64 division: ordering of the
exact quotients (cross-multiplied) is preserved by the rounding. -/
theorem fdiv64_mono (a1 b1 a2 b2 : ℕ) (ha1 : 0 < a1) (hb1 : 0 < b1)
    (ha2 : 0 < a2) (hb2 : 0 < b2) (h : a1 * b2 ≤ a2 * b1) :
    fdiv64 a1 b1 ≤ fdiv64 a2 b2 := by
  have hee : ilog2n a1 b1 ≤ ilog2n a2 b2 := ilog2n_mono a1 b1 a2 b2 ha1 hb1 ha2 hb2 h
  have hpp : gridExp (ilog2n a1 b1) ≤ gridExp (ilog2n a2 b2) := by
    unfold gridExp; omega
  rcases eq_or_lt_of_le hpp with hp | hp
  · -- same grid: rounding of ordered fractions is ordered
    rw [fdiv64_eq, fdiv64_eq, ← hp]
    apply mul_le_mul_of_nonneg_right _ (pow2z_pos _).le
    have := rheN_mono (a1 * 2 ^ (-gridExp (ilog2n a1 b1)).toNat)
      (b1 * 2 ^ (gridExp (ilog2n a1 b1)).toNat)
      (a2 * 2 ^ (-gridExp (ilog2n a1 b1)).toNat)
      (b2 * 2 ^ (gridExp (ilog2n a1 b1)).toNat)
      (by positivity) (by positivity)
      (by calc a1 * 2 ^ (-gridExp (ilog2n a1 b1)).toNat
              * (b2 * 2 ^ (gridExp (ilog2n a1 b1)).toNat)
            = a1 * b2 * (2 ^ (-gridExp (ilog2n a1 b1)).toNat
              * 2 ^ (gridExp (ilog2n a1 b1)).toNat) := by ring
          _ ≤ a2 * b1 * (2 ^ (-gridExp (ilog2n a1 b1)).toNat
              * 2 ^ (gridExp (ilog2n a1 b1)).toNat) := Nat.mul_le_mul_right _ h
          _ = a2 * 2 ^ (-gridExp (ilog2n a1 b1)).toNat
              * (b1 * 2 ^ (gridExp (ilog2n a1 b1)).toNat) := by ring)
    exact_mod_cast this
  · -- coarser grid for the larger value: chain through the pure power 2 ^ e2
    have hcl : gridExp (ilog2n a2 b2) = ilog2n a2 b2 - 52 := by
      unfold gridExp at hp ⊢; omega
    have he2 : -1021 ≤ ilog2n a2 b2 := by
      unfold gridExp at hp; omega
    have hstep : max (ilog2n a1 b1 + 1) (-1074) ≤ ilog2n a2 b2 := by
      unfold gridExp at hp; omega
    calc fdiv64 a1 b1 ≤ pow2z (max (ilog2n a1 b1 + 1) (-1074)) := fdiv64_le_max a1 b1 ha1 hb1
      _ ≤ pow2z (ilog2n a2 b2) := pow2z_mono hstep
      _ ≤ fdiv64 a2 b2 := fdiv64_ge_pow a2 b2 ha2 hb2 (by omega)

/-! ## Embedding of the decision logic of `image_process` (image.py) -/

/-- Line 32: arbitrary limit on the decoded resolution (45e6 pixels). -/
def IMAGE_MAX_RESOLUTION : ℕ := 45000000

/-- Line 96: the limit put in the error message,
`IMAGE_MAX_RESOLUTION / 10e6`, i.e. 4.5 million pixels (the display
divisor 10e6 differs from the actual limit divisor). -/
def resolution_limit_display : ℚ := mkRat 45000000 10000000

/-- Observable attributes of a decoded Pillow image: pixel dimensions,
pixel mode, intrinsic format reported at decode time, and whether the
decoder put a transparency entry in `image.info`. -/
structure Img where
  width : ℕ
  height : ℕ
  mode : String
  format : String
  transparency : Bool
deriving DecidableEq

/-- ASCII uppercase of a string, character by character.  Python
`str.upper()` is Unicode-aware, but on the ASCII format names handled
here the two coincide. -/
def upperAscii (s : String) : String := String.mk (s.data.map Char.toUpper)

/-- Lines 99-103: effective output format,
`(output_format or image.format).upper()`, then `BMP` mapped to `PNG` and
everything outside PNG/JPEG/GIF mapped to `JPEG`.  `none` models Python
`None`; the empty string is falsy in Python as well. -/
def resolve_format (output_format : Option String) (image_format : String) : String :=
  let f := upperAscii (match output_format with
            | some s => if s = "" then image_format else s
            | none => image_format)
  if f = "BMP" then "PNG"
  else if f = "PNG" ∨ f = "JPEG" ∨ f = "GIF" then f
  else "JPEG"

/-- Lines 109-110: `asked_width = size[0] or (w * size[1]) // h` and
`asked_height = size[1] or (h * size[0]) // w` (integer truncating
division; `or` takes the left operand when it is non-zero). -/
def asked_size (w h sw sh : ℕ) : ℕ × ℕ :=
  (if sw ≠ 0 then sw else w * sh / h, if sh ≠ 0 then sh else h * sw / w)

/-- Line 117: the branch condition `w / asked_width > h / asked_height`,
Python true division of integers compared on binary64 values. -/
def crop_cond (w h asked_width asked_height : ℕ) : Bool :=
  decide (fdiv64 w asked_width > fdiv64 h asked_height)

/-- Lines 122-126: the two sequential safety clamps, `new_w > w` first,
then `new_h > h` on the possibly updated pair. -/
def crop_clamp (w h : ℕ) (p : ℕ × ℕ) : ℕ × ℕ :=
  let p1 := if p.1 > w then (w, p.2 * w / p.1) else p
  if p1.2 > h then (p1.1 * h / p1.2, h) else p1

/-- Lines 117-126: the crop window `(new_w, new_h)`: keep the full width
and reduce the height when the float ratio comparison favours the width,
otherwise keep the full height, then apply the safety clamps. -/
def crop_window (w h asked_width asked_height : ℕ) : ℕ × ℕ :=
  crop_clamp w h
    (if crop_cond w h asked_width asked_height
     then (w, asked_height * w / asked_width)
     else (asked_width * h / asked_height, h))

/-- Lines 130-135: the vertical anchor fraction, `0.5` by default, `0`
for `top` and `1` for `bottom` (the literals 0, 0.5, 1 are exact in
binary64, so rationals model the Python floats exactly). -/
def center_y (crop : String) : ℚ :=
  if crop = "top" then 0 else if crop = "bottom" then 1 else mkRat 1 2

/-- Line 136: `x_offset = (w - new_w) * center_x` with `center_x = 0.5`
(exact in binary64 since `w - new_w` is an integer). -/
def x_offset (w new_w : ℕ) : ℚ := ((w : ℚ) - (new_w : ℚ)) * mkRat 1 2

/-- Line 137: `h_offset = (h - new_h) * center_y`. -/
def h_offset (h new_h : ℕ) (crop : String) : ℚ :=
  ((h : ℚ) - (new_h : ℚ)) * center_y crop

/-- Modelled from the spec: the final resize step delegates to the codec
(`image.thumbnail((asked_width, asked_height), LANCZOS)` at line 141;
Pillow's code is not part of this repository).  Per the spec the resize
fits the image inside the asked box while preserving the aspect ratio
with truncating integer arithmetic and a one-pixel floor, never
upscales, and is a no-op when the image already fits. -/
def thumbnail_size (w h bound_w bound_h : ℕ) : ℕ × ℕ :=
  let p := if bound_w < w then (bound_w, max (h * bound_w / w) 1) else (w, h)
  if bound_h < p.2 then (max (p.1 * bound_h / p.2) 1, bound_h) else p

/-- The values Python `randrange(start, stop, step)` can return for a
positive step: `start + k * step` for `k < ceil((stop - start) / step)`;
the stop bound is exclusive. -/
def randrange_vals (start stop step : ℕ) : List ℕ :=
  (List.range ((stop - start + step - 1) / step)).map (fun k => start + k * step)

/-- Lines 143-148: the colorize step: a fresh `RGB` canvas of the
original size is filled with the random color and the original is pasted
over it with its own transparency as the mask, giving an opaque RGB
image of the original dimensions with no transparency entry. -/
def colorize_step (original : Img) : Img :=
  { width := original.width, height := original.height,
    mode := "RGB", format := original.format, transparency := false }

/-- The observable outcome of a completed run: resolved format, final
pixel size and mode, the crop rectangle passed to the codec (if any),
the random color used by colorize (if any), and the encode options. -/
structure ProcOut where
  format : String
  width : ℕ
  height : ℕ
  mode : String
  cropBox : Option (ℚ × ℚ × ℚ × ℚ)
  colorized : Option (ℕ × ℕ × ℕ)
  optimize : Bool
  quality : Option ℕ
deriving DecidableEq

/-- Result of `image_process`: the `False` sentinel, the unchanged SVG
passthrough, a decode failure (OSError), the resolution guard failure
(ValueError, with the reported limit in million pixels), or a completed
run. -/
inductive ProcResult where
  | noImage
  | passthrough (source : List ℕ)
  | decodeFail
  | resolutionExceeded (limit_millions : ℚ)
  | processed (out : ProcOut)
deriving DecidableEq

/-- Lines 98-169 after the resolution guard: format resolution, optional
crop and resize, optional colorize, encode-option construction and the
final pixel-mode normalization.  The crop rectangle is
`(x_offset, h_offset, x_offset + new_w, h_offset + new_h)` and the
cropped image takes the size of that window (the rectangle coordinates
here are exact integers or halves).  `putalpha` on the palette image
promotes it to `RGBA`, which is how Pillow realizes reapplying the
extracted alpha channel. -/
def process_core (image : Img) (size : ℕ × ℕ) (quality : ℕ)
    (crop : Option String) (colorize : Bool) (output_format : Option String)
    (rgb : ℕ × ℕ × ℕ) : ProcOut :=
  let fmt := resolve_format output_format image.format
  let geom :=
    if size.1 ≠ 0 ∨ size.2 ≠ 0 then
      let w := image.width
      let h := image.height
      let aw := (asked_size w h size.1 size.2).1
      let ah := (asked_size w h size.1 size.2).2
      let cropped :=
        match crop with
        | some c =>
          if c ≠ "" then
            let nwh := crop_window w h aw ah
            ({ image with width := nwh.1, height := nwh.2 },
             some (x_offset w nwh.1, h_offset h nwh.2 c,
                   x_offset w nwh.1 + (nwh.1 : ℚ), h_offset h nwh.2 c + (nwh.2 : ℚ)))
          else (image, none)
        | none => (image, none)
      let ts := thumbnail_size cropped.1.width cropped.1.height aw ah
      ({ cropped.1 with width := ts.1, height := ts.2 }, cropped.2)
    else (image, none)
  let img1 := if colorize then colorize_step geom.1 else geom.1
  let img2 :=
    if fmt = "PNG" then
      let alpha := img1.mode = "RGBA" ∨ img1.mode = "LA"
                   ∨ (img1.mode = "P" ∧ img1.transparency)
      let imgP := if img1.mode ≠ "P" then { img1 with mode := "P" } else img1
      if alpha then { imgP with mode := "RGBA" } else imgP
    else img1
  let img3 :=
    if ¬ (img2.mode = "1" ∨ img2.mode = "L" ∨ img2.mode = "P"
          ∨ img2.mode = "RGB" ∨ img2.mode = "RGBA")
       ∨ (fmt = "JPEG" ∧ img2.mode = "RGBA")
    then { img2 with mode := "RGB" } else img2
  { format := fmt, width := img3.width, height := img3.height,
    mode := img3.mode, cropBox := geom.2,
    colorized := if colorize then some rgb else none,
    optimize := decide (fmt = "PNG" ∨ fmt = "JPEG" ∨ fmt = "GIF"),
    quality := if fmt = "JPEG" then some quality else none }

/-- Lines 86-169: the full decision pipeline of `image_process`.  The
codec decode is a parameter (`decode` returns the decoded image's
observable attributes, or `none` when Pillow cannot identify the
payload); the random channels drawn by colorize are the explicit
argument `rgb`; the base64 source is modelled as its list of bytes. -/
def image_process (decode : List ℕ → Option Img) (base64_source : List ℕ)
    (size : ℕ × ℕ) (verify_resolution : Bool) (quality : ℕ)
    (crop : Option String) (colorize : Bool) (output_format : Option String)
    (rgb : ℕ × ℕ × ℕ) : ProcResult :=
  if base64_source = [] then .noImage
  else if base64_source.head? = some 80 then .passthrough base64_source
  else
    match decode base64_source with
    | none => .decodeFail
    | some image =>
      if verify_resolution ∧ image.width * image.height > IMAGE_MAX_RESOLUTION then
        .resolutionExceeded resolution_limit_display
      else
        .processed (process_core image size quality crop colorize output_format rgb)

/-! ## Properties -/

theorem mul_div_le_of_le (a b c : ℕ) (hc : 0 < c) (h : b ≤ c) : a * b / c ≤ a := by
  calc a * b / c ≤ a * c / c := Nat.div_le_div_right (Nat.mul_le_mul_left a h)
    _ = a := Nat.mul_div_cancel a hc

theorem crop_clamp_invariant (w h : ℕ) (hw : 0 < w) (hh : 0 < h) (p : ℕ × ℕ)
    (hp : p.1 = w ∨ p.2 = h) :
    (crop_clamp w h p).1 ≤ w ∧ (crop_clamp w h p).2 ≤ h
    ∧ ((crop_clamp w h p).1 = w ∨ (crop_clamp w h p).2 = h) := by
  obtain ⟨pw, ph⟩ := p
  simp only at hp
  simp only [crop_clamp]
  split_ifs with h1 h2 h3
  · dsimp only at h2 ⊢
    exact ⟨mul_div_le_of_le w h _ (by omega) (by omega), le_rfl, Or.inr rfl⟩
  · dsimp only at h2 ⊢
    exact ⟨le_rfl, by omega, Or.inl rfl⟩
  · dsimp only at h1 h3 ⊢
    exact ⟨le_trans (mul_div_le_of_le pw h ph (by omega) (by omega)) (by omega),
      le_rfl, Or.inr rfl⟩
  · dsimp only at h1 h3 ⊢
    exact ⟨by omega, by omega, hp⟩

/-- C1: for every positive original size `(w, h)` and positive crop
target, the crop window computed by the branch-and-clamp logic satisfies
`new_w ≤ w` and `new_h ≤ h`, and at least one of `new_w = w` or
`new_h = h` holds, including after a safety clamp has rescaled an
overshooting dimension. -/
theorem C1_crop_window_invariant (w h asked_width asked_height : ℕ)
    (hw : 0 < w) (hh : 0 < h) (haw : 0 < asked_width) (hah : 0 < asked_height) :
    (crop_window w h asked_width asked_height).1 ≤ w
    ∧ (crop_window w h asked_width asked_height).2 ≤ h
    ∧ ((crop_window w h asked_width asked_height).1 = w
       ∨ (crop_window w h asked_width asked_height).2 = h) := by
  unfold crop_window
  apply crop_clamp_invariant w h hw hh
  by_cases hc : crop_cond w h asked_width asked_height = true
  · rw [if_pos hc]
    exact Or.inl rfl
  · rw [if_neg hc]
    exact Or.inr rfl

/-- Witness for C1 at the concrete input w = h = 5, asked size (2, 3):
the branch picks full width, the height clamp fires, and the window is
(3, 5). -/
theorem C1_crop_window_invariant_witness :
    (crop_window 5 5 2 3).1 ≤ 5 ∧ (crop_window 5 5 2 3).2 ≤ 5
    ∧ ((crop_window 5 5 2 3).1 = 5 ∨ (crop_window 5 5 2 3).2 = 5) :=
  C1_crop_window_invariant 5 5 2 3 (by decide) (by decide) (by decide) (by decide)

/-- C2 is false as stated: at original size (2^53+1, 1) and asked size
(2^53, 1) the two Python float quotients round to the same double (1.0),
so the code selects the keep-full-height branch, although the exact
cross-multiplied comparison `w * asked_height > h * asked_width` holds;
the crop window is (2^53, 1) instead of the full-width window
(2^53+1, 1) the exact comparison would produce. -/
theorem C2_counterexample :
    crop_cond (2 ^ 53 + 1) 1 (2 ^ 53) 1 = false
    ∧ (2 ^ 53 + 1) * 1 > 1 * 2 ^ 53
    ∧ crop_window (2 ^ 53 + 1) 1 (2 ^ 53) 1 = (2 ^ 53, 1) :=
  ⟨by decide, by norm_num, by decide⟩

/-- C2 amended: the branch selection compares the two quotients as
correctly rounded binary64 values; this agrees with the exact
cross-multiplied comparison in one direction only: whenever the
keep-full-width branch is selected, `w * asked_height > h * asked_width`
holds exactly.  The converse fails (see the counterexample). -/
theorem C2_branch_selection_sound (w h asked_width asked_height : ℕ)
    (hw : 0 < w) (hh : 0 < h) (haw : 0 < asked_width) (hah : 0 < asked_height)
    (hsel : crop_cond w h asked_width asked_height = true) :
    w * asked_height > h * asked_width := by
  by_contra hcon
  push_neg at hcon
  have hmono := fdiv64_mono w asked_width h asked_height hw haw hh hah hcon
  unfold crop_cond at hsel
  have hlt := of_decide_eq_true hsel
  exact absurd hlt (not_lt.mpr hmono)

/-- Witness for the amended C2 at w = 2, h = 1, asked size (1, 1). -/
theorem C2_branch_selection_sound_witness :
    crop_cond 2 1 1 1 = true ∧ 2 * 1 > 1 * 1 :=
  ⟨by decide,
   C2_branch_selection_sound 2 1 1 1 (by decide) (by decide) (by decide) (by decide)
     (by decide)⟩

/-- C3: for a 300x300 image with size (100, 200) and crop `top`, the
asked size is (100, 200); the crop window is height-limited at the
original height 300 (width 150 after the safety clamp); the crop
rectangle is anchored at the top edge (vertical offset 0) and centered
horizontally ((300 - 150) * 0.5 = 75); the final resize gives exactly
100x200. -/
theorem C3_concrete_300_top :
    asked_size 300 300 100 200 = (100, 200)
    ∧ crop_window 300 300 100 200 = (150, 300)
    ∧ (crop_window 300 300 100 200).2 = 300
    ∧ h_offset 300 300 "top" = 0
    ∧ x_offset 300 150 = 75
    ∧ thumbnail_size 150 300 100 200 = (100, 200)
    ∧ image_process (fun _ => some ⟨300, 300, "RGB", "JPEG", false⟩) [47]
        (100, 200) false 80 (some "top") false none (0, 0, 0)
      = .processed { format := "JPEG", width := 100, height := 200, mode := "RGB",
                     cropBox := some (75, 0, 225, 300), colorized := none,
                     optimize := true, quality := some 80 } := by
  have h1 : resolve_format none "JPEG" = "JPEG" := by decide
  have h2 : crop_window 300 300 100 200 = (150, 300) := by decide
  have h3 : asked_size 300 300 100 200 = (100, 200) := by decide
  have h4 : thumbnail_size 150 300 100 200 = (100, 200) := by decide
  refine ⟨h3, h2, by rw [h2], ?_, ?_, h4, ?_⟩
  · unfold h_offset center_y
    norm_num
  · unfold x_offset
    rw [Rat.mkRat_eq_div]
    norm_num
  · simp only [image_process, process_core, h1, h3]
    norm_num [h2, h4, x_offset, h_offset, center_y, Rat.mkRat_eq_div]
    decide

theorem thumbnail_size_le (w h bound_w bound_h : ℕ) (hw : 0 < w) (hh : 0 < h) :
    (thumbnail_size w h bound_w bound_h).1 ≤ w
    ∧ (thumbnail_size w h bound_w bound_h).2 ≤ h := by
  simp only [thumbnail_size]
  split_ifs with h1 h2 h3
  · dsimp only at h2 ⊢
    have hM : h * bound_w / w ≤ h := mul_div_le_of_le h bound_w w hw (by omega)
    have hD : bound_w * bound_h / max (h * bound_w / w) 1 ≤ bound_w :=
      mul_div_le_of_le bound_w bound_h _ (by omega) (by omega)
    exact ⟨by omega, by omega⟩
  · dsimp only at h2 ⊢
    have hM : h * bound_w / w ≤ h := mul_div_le_of_le h bound_w w hw (by omega)
    exact ⟨by omega, by omega⟩
  · dsimp only at h3 ⊢
    have hD : w * bound_h / h ≤ w := mul_div_le_of_le w bound_h h hh (by omega)
    exact ⟨by omega, by omega⟩
  · dsimp only at h3 ⊢
    exact ⟨le_rfl, by omega⟩

theorem thumbnail_size_noop (w h bound_w bound_h : ℕ)
    (h1 : w ≤ bound_w) (h2 : h ≤ bound_h) :
    thumbnail_size w h bound_w bound_h = (w, h) := by
  simp only [thumbnail_size]
  rw [if_neg (show ¬ bound_w < w by omega)]
  rw [if_neg (show ¬ bound_h < (w, h).2 by dsimp only; omega)]

/-- C4: with exactly one zero component in the size option, the missing
target dimension is derived by integer truncating division from the
other one and the original aspect ratio; the subsequent resize is
downscale-only (the output never exceeds the original dimensions) and a
target at or above the original leaves the dimensions unchanged. -/
theorem C4_asked_size_downscale (w h sw sh : ℕ) (hw : 0 < w) (hh : 0 < h)
    (hone : (sw = 0 ∧ sh ≠ 0) ∨ (sw ≠ 0 ∧ sh = 0)) :
    asked_size w h sw sh
      = (if sw ≠ 0 then sw else w * sh / h, if sh ≠ 0 then sh else h * sw / w)
    ∧ (thumbnail_size w h (asked_size w h sw sh).1 (asked_size w h sw sh).2).1 ≤ w
    ∧ (thumbnail_size w h (asked_size w h sw sh).1 (asked_size w h sw sh).2).2 ≤ h
    ∧ (w ≤ (asked_size w h sw sh).1 → h ≤ (asked_size w h sw sh).2 →
        thumbnail_size w h (asked_size w h sw sh).1 (asked_size w h sw sh).2 = (w, h)) :=
  ⟨rfl, (thumbnail_size_le w h _ _ hw hh).1, (thumbnail_size_le w h _ _ hw hh).2,
   fun hbw hbh => thumbnail_size_noop w h _ _ hbw hbh⟩

/-- Witness for C4 at a 200x100 image with size (0, 200): the derived
asked size is (400, 200), at or above the original, so the resize is a
no-op. -/
theorem C4_asked_size_downscale_witness :
    asked_size 200 100 0 200
      = (if (0:ℕ) ≠ 0 then 0 else 200 * 200 / 100, if (200:ℕ) ≠ 0 then 200 else 100 * 0 / 200)
    ∧ (thumbnail_size 200 100 (asked_size 200 100 0 200).1 (asked_size 200 100 0 200).2).1 ≤ 200
    ∧ (thumbnail_size 200 100 (asked_size 200 100 0 200).1 (asked_size 200 100 0 200).2).2 ≤ 100
    ∧ (200 ≤ (asked_size 200 100 0 200).1 → 100 ≤ (asked_size 200 100 0 200).2 →
        thumbnail_size 200 100 (asked_size 200 100 0 200).1 (asked_size 200 100 0 200).2
          = (200, 100)) :=
  C4_asked_size_downscale 200 100 0 200 (by decide) (by decide)
    (Or.inl ⟨rfl, by decide⟩)

/-- C5: for a decodable non-empty non-SVG source, processing with
resolution verification fails with the resolution-exceeded error exactly
when width * height > IMAGE_MAX_RESOLUTION = 45,000,000, the reported
limit being 45e6 / 10e6 = 4.5 million pixels; without verification the
guard never applies and processing completes. -/
theorem C5_resolution_guard (decode : List ℕ → Option Img) (src : List ℕ)
    (img : Img) (size : ℕ × ℕ) (quality : ℕ) (crop : Option String)
    (colorize : Bool) (output_format : Option String) (rgb : ℕ × ℕ × ℕ)
    (hne : src ≠ []) (hsvg : src.head? ≠ some 80) (hdec : decode src = some img) :
    (image_process decode src size true quality crop colorize output_format rgb
       = .resolutionExceeded resolution_limit_display
     ↔ img.width * img.height > IMAGE_MAX_RESOLUTION)
    ∧ IMAGE_MAX_RESOLUTION = 45000000
    ∧ resolution_limit_display = mkRat 9 2
    ∧ (∃ out, image_process decode src size false quality crop colorize output_format rgb
         = .processed out) := by
  refine ⟨?_, rfl, by decide, ?_⟩
  · simp only [image_process, if_neg hne, if_neg hsvg, hdec]
    by_cases hres : img.width * img.height > IMAGE_MAX_RESOLUTION
    · simp [hres]
    · simp [hres]
  · simp only [image_process, if_neg hne, if_neg hsvg, hdec]
    rw [if_neg (by simp :
      ¬ ((false : Bool) = true ∧ img.width * img.height > IMAGE_MAX_RESOLUTION))]
    exact ⟨_, rfl⟩

/-- Witness for C5 with a 10000x5000 decoded image (5e7 pixels, above
the limit) from the one-byte source [0]. -/
theorem C5_resolution_guard_witness :
    (image_process (fun _ => some ⟨10000, 5000, "RGB", "PNG", false⟩) [0]
        (0, 0) true 80 none false none (0, 0, 0)
       = .resolutionExceeded resolution_limit_display
     ↔ (Img.mk 10000 5000 "RGB" "PNG" false).width
         * (Img.mk 10000 5000 "RGB" "PNG" false).height > IMAGE_MAX_RESOLUTION)
    ∧ IMAGE_MAX_RESOLUTION = 45000000
    ∧ resolution_limit_display = mkRat 9 2
    ∧ (∃ out, image_process (fun _ => some ⟨10000, 5000, "RGB", "PNG", false⟩) [0]
        (0, 0) false 80 none false none (0, 0, 0) = .processed out) :=
  C5_resolution_guard (fun _ => some ⟨10000, 5000, "RGB", "PNG", false⟩) [0]
    ⟨10000, 5000, "RGB", "PNG", false⟩ (0, 0) 80 none false none (0, 0, 0)
    (by decide) (by decide) rfl

/-- C6 is false as stated: the claimed channel set has inclusive bounds
{32, 56, ..., 224}, but `randrange(32, 224, 24)` excludes its stop
bound, so 224 can never be drawn; the possible channel values are
exactly {32, 56, 80, 104, 128, 152, 176, 200}. -/
theorem C6_counterexample :
    224 ∈ (List.range 9).map (fun k => 32 + 24 * k)
    ∧ 224 ∉ randrange_vals 32 224 24
    ∧ randrange_vals 32 224 24 = [32, 56, 80, 104, 128, 152, 176, 200] :=
  ⟨by decide, by decide, by decide⟩

/-- C6 amended: each channel is drawn independently and uniformly from
`randrange(32, 224, 24)`, i.e. {32, 56, ..., 200} (step 24, the stop
bound 224 exclusive, so 224 is never produced); the colorize step fills
a canvas of the original dimensions and composites the original over it
by its own transparency, producing an opaque RGB image of the same
dimensions with no alpha channel. -/
theorem C6_colorize (img : Img) (r g b : ℕ)
    (hr : r ∈ randrange_vals 32 224 24) (hg : g ∈ randrange_vals 32 224 24)
    (hb : b ∈ randrange_vals 32 224 24) :
    (colorize_step img).width = img.width
    ∧ (colorize_step img).height = img.height
    ∧ (colorize_step img).mode = "RGB"
    ∧ (colorize_step img).transparency = false
    ∧ (32 ≤ r ∧ r ≤ 200 ∧ (r - 32) % 24 = 0)
    ∧ (32 ≤ g ∧ g ≤ 200 ∧ (g - 32) % 24 = 0)
    ∧ (32 ≤ b ∧ b ≤ 200 ∧ (b - 32) % 24 = 0) := by
  have hset : ∀ x, x ∈ randrange_vals 32 224 24 →
      32 ≤ x ∧ x ≤ 200 ∧ (x - 32) % 24 = 0 := by
    intro x hx
    fin_cases hx <;> decide
  exact ⟨rfl, rfl, rfl, rfl, hset r hr, hset g hg, hset b hb⟩

/-- Witness for the amended C6 with a transparent palette image and all
three channels at the lower bound 32. -/
theorem C6_colorize_witness :
    (colorize_step ⟨10, 20, "P", "PNG", true⟩).width = (Img.mk 10 20 "P" "PNG" true).width
    ∧ (colorize_step ⟨10, 20, "P", "PNG", true⟩).height = (Img.mk 10 20 "P" "PNG" true).height
    ∧ (colorize_step ⟨10, 20, "P", "PNG", true⟩).mode = "RGB"
    ∧ (colorize_step ⟨10, 20, "P", "PNG", true⟩).transparency = false
    ∧ (32 ≤ 32 ∧ 32 ≤ 200 ∧ (32 - 32) % 24 = 0)
    ∧ (32 ≤ 56 ∧ 56 ≤ 200 ∧ (56 - 32) % 24 = 0)
    ∧ (32 ≤ 200 ∧ 200 ≤ 200 ∧ (200 - 32) % 24 = 0) :=
  C6_colorize ⟨10, 20, "P", "PNG", true⟩ 32 56 200 (by decide) (by decide) (by decide)

/-- The format normalization as the spec words it: uppercase the chosen
name, map BMP to PNG, map everything outside {PNG, JPEG, GIF} to JPEG. -/
def specFormatMap (f : String) : String :=
  if upperAscii f = "BMP" then "PNG"
  else if upperAscii f = "PNG" ∨ upperAscii f = "JPEG" ∨ upperAscii f = "GIF"
  then upperAscii f
  else "JPEG"

/-- C7: the effective output format is the requested one when specified
(non-empty), otherwise the decoded image's intrinsic format, uppercased;
BMP always remaps to PNG and any other unrecognized name remaps to
JPEG; hence the result is always one of PNG, JPEG, GIF. -/
theorem C7_resolve_format (output_format : Option String) (image_format : String) :
    (∀ s, output_format = some s → s ≠ "" →
      resolve_format output_format image_format = specFormatMap s)
    ∧ (output_format = none →
      resolve_format output_format image_format = specFormatMap image_format)
    ∧ (resolve_format output_format image_format = "PNG"
       ∨ resolve_format output_format image_format = "JPEG"
       ∨ resolve_format output_format image_format = "GIF") := by
  refine ⟨?_, ?_, ?_⟩
  · rintro s rfl hs
    simp only [resolve_format, specFormatMap, if_neg hs]
  · rintro rfl
    simp only [resolve_format, specFormatMap]
  · simp only [resolve_format]
    split_ifs with h1 h2
    · exact Or.inl rfl
    · tauto
    · exact Or.inr (Or.inl rfl)

/-- Witness for C7: requesting lowercase `bmp` for a GIF image resolves
to PNG. -/
theorem C7_resolve_format_witness :
    resolve_format (some "bmp") "gif" = specFormatMap "bmp"
    ∧ (resolve_format (some "bmp") "gif" = "PNG"
       ∨ resolve_format (some "bmp") "gif" = "JPEG"
       ∨ resolve_format (some "bmp") "gif" = "GIF") :=
  ⟨(C7_resolve_format (some "bmp") "gif").1 "bmp" rfl (by decide),
   (C7_resolve_format (some "bmp") "gif").2.2⟩

/-- C8: a source whose first byte is `P` (SVG sniff) is returned exactly
unchanged, whatever the options, without decoding. -/
theorem C8_svg_passthrough (decode : List ℕ → Option Img) (rest : List ℕ)
    (size : ℕ × ℕ) (verify_resolution : Bool) (quality : ℕ) (crop : Option String)
    (colorize : Bool) (output_format : Option String) (rgb : ℕ × ℕ × ℕ) :
    image_process decode (80 :: rest) size verify_resolution quality crop colorize
      output_format rgb = .passthrough (80 :: rest) := by
  unfold image_process
  rw [if_neg (List.cons_ne_nil 80 rest),
    if_pos (show (80 :: rest).head? = some 80 from rfl)]

/-- C9: an empty (falsy) source yields the `False` sentinel immediately,
whatever the options. -/
theorem C9_empty_source (decode : List ℕ → Option Img)
    (size : ℕ × ℕ) (verify_resolution : Bool) (quality : ℕ) (crop : Option String)
    (colorize : Bool) (output_format : Option String) (rgb : ℕ × ℕ × ℕ) :
    image_process decode [] size verify_resolution quality crop colorize
      output_format rgb = .noImage := by
  unfold image_process
  rw [if_pos rfl]

theorem process_core_quality (image : Img) (size : ℕ × ℕ) (q1 q2 : ℕ)
    (crop : Option String) (colorize : Bool) (output_format : Option String)
    (rgb : ℕ × ℕ × ℕ)
    (hfmt : resolve_format output_format image.format ≠ "JPEG") :
    process_core image size q1 crop colorize output_format rgb
    = process_core image size q2 crop colorize output_format rgb := by
  simp only [process_core, if_neg hfmt]

/-- C10: when the resolved effective output format is not JPEG, the
outcome of image_process does not depend on the quality parameter,
because quality enters the encode options only on the JPEG branch. -/
theorem C10_quality_independence (decode : List ℕ → Option Img) (src : List ℕ)
    (img : Img) (size : ℕ × ℕ) (verify_resolution : Bool) (crop : Option String)
    (colorize : Bool) (output_format : Option String) (rgb : ℕ × ℕ × ℕ)
    (q1 q2 : ℕ) (hdec : decode src = some img)
    (hfmt : resolve_format output_format img.format ≠ "JPEG") :
    image_process decode src size verify_resolution q1 crop colorize output_format rgb
    = image_process decode src size verify_resolution q2 crop colorize output_format rgb := by
  by_cases h0 : src = []
  · unfold image_process
    rw [if_pos h0, if_pos h0]
  · by_cases h1 : src.head? = some 80
    · unfold image_process
      rw [if_neg h0, if_neg h0, if_pos h1, if_pos h1]
    · simp only [image_process, if_neg h0, if_neg h1, hdec]
      by_cases hres : (verify_resolution : Prop) ∧ img.width * img.height > IMAGE_MAX_RESOLUTION
      · rw [if_pos hres, if_pos hres]
      · rw [if_neg hres, if_neg hres, process_core_quality img size q1 q2 crop colorize
          output_format rgb hfmt]

/-- Witness for C10: a PNG image processed at quality 1 and quality 95
gives the same outcome. -/
theorem C10_quality_independence_witness :
    image_process (fun _ => some ⟨8, 8, "RGB", "PNG", false⟩) [0]
      (0, 0) false 1 none false none (0, 0, 0)
    = image_process (fun _ => some ⟨8, 8, "RGB", "PNG", false⟩) [0]
      (0, 0) false 95 none false none (0, 0, 0) :=
  C10_quality_independence (fun _ => some ⟨8, 8, "RGB", "PNG", false⟩) [0]
    ⟨8, 8, "RGB", "PNG", false⟩ (0, 0) false none false none (0, 0, 0) 1 95
    rfl (by decide)
